import Mathlib

/-!
Verification development for the name-availability checker.

The source program is a small Python tool that checks whether a candidate
package name is taken on several registries.  The core consists of a tiny
JSONPath-like extractor, a string normalizer, a sliding-window throttle,
and a configuration-driven engine evaluator, plus a CSV name reader.

This file gives a shallow embedding of that core: Python strings become
List Char, JSON documents become an inductive type, the stateful throttle
becomes an explicit state-passing step function over rational timestamps,
and the engine evaluator becomes a pure function of the fetched
(status, document) pair.
-/

/-! ## Characters and strings (models of the Python string primitives used) -/

/-- Whitespace characters recognized by the model of Python str.strip. -/
def isPyWs (c : Char) : Bool :=
  c = ' ' || c = Char.ofNat 9 || c = Char.ofNat 10 || c = Char.ofNat 13 ||
  c = Char.ofNat 11 || c = Char.ofNat 12

/-- Model of Python str.strip: drop whitespace from both ends. -/
def pyStripWs (s : List Char) : List Char :=
  (((s.dropWhile isPyWs).reverse).dropWhile isPyWs).reverse

/-- Model of the ASCII action of Python str.lower, applied to one character. -/
def lowerChar (c : Char) : Char :=
  if 65 ≤ c.toNat ∧ c.toNat ≤ 90 then Char.ofNat (c.toNat + 32) else c

/-- Model of Python str.lower (charwise, ASCII range). -/
def pyLower (s : List Char) : List Char := s.map lowerChar

/-- One character of the replace step in the normalizer: underscore to dash. -/
def replChar (c : Char) : Char := if c = '_' then '-' else c

/-- Does the list start with the comment character? -/
def startsHash : List Char → Bool
  | [] => false
  | c :: _ => decide (c = '#')

/-! ## JSON documents

Python None and JSON null are the same object in the source, so the
fetched document is a single Json value with Json.null standing for None. -/

inductive Json : Type where
  | null : Json
  | bool : Bool → Json
  | int : Int → Json
  | str : List Char → Json
  | arr : List Json → Json
  | obj : List (List Char × Json) → Json

/-- Lookup in a dict-shaped node (Python node.get / node[key]). -/
def dictGet (kvs : List (List Char × Json)) (key : List Char) : Option Json :=
  match kvs with
  | [] => none
  | (k, v) :: rest => if k = key then some v else dictGet rest key

/-- isinstance(data, (list, dict)). -/
def isListOrDict : Json → Bool
  | .arr _ => true
  | .obj _ => true
  | _ => false

/-! ## Path extractor, translation of _json_read (src/main.py lines 10-33) -/

/-- Model of Python str.split(sep) for a one-character separator; note that
splitting the empty string yields one empty piece, as in Python. -/
def splitDot : List Char → List (List Char)
  | [] => [[]]
  | ch :: rest =>
    match splitDot rest with
    | [] => [[ch]]
    | s :: ss => if ch = '.' then [] :: s :: ss else (ch :: s) :: ss

/-- Model of str.lstrip on the dollar character. -/
def dropDollars (s : List Char) : List Char := s.dropWhile (fun c => c = '$')

/-- Model of str.lstrip on the dot character. -/
def dropDots (s : List Char) : List Char := s.dropWhile (fun c => c = '.')

/-- Does the segment end with the three characters left-bracket, star,
right-bracket (Python p.endswith)? -/
def endsWithStar (p : List Char) : Bool :=
  decide (p.reverse.take 3 = [']', '*', '['])

/-- Elements contributed by one node under the bare wildcard segment. -/
def starElems : Json → List Json
  | .arr xs => xs
  | _ => []

/-- Elements contributed by one node under a key-with-wildcard segment:
node.get(key, default empty list), extended only when the value is a list. -/
def keyStarElems (key : List Char) : Json → List Json
  | .obj kvs =>
    match dictGet kvs key with
    | some (.arr xs) => xs
    | some _ => []
    | none => []
  | _ => []

/-- Value contributed by one node under a plain-key segment:
present exactly when the node is a dict containing the key. -/
def objGet (key : List Char) : Json → Option Json
  | .obj kvs => dictGet kvs key
  | _ => none

/-- One iteration of the segment loop in _json_read: the next node set built
by appending each node's contribution, with the same branch order as the
Python if/elif/else on the raw segment string. -/
def segStep (cur : List Json) (p : List Char) : List Json :=
  if p = "[*]".data then
    cur.foldl (fun nxt node => nxt ++ starElems node) []
  else if endsWithStar p then
    cur.foldl (fun nxt node => nxt ++ keyStarElems (p.take (p.length - 3)) node) []
  else
    cur.foldl (fun nxt node => nxt ++ (objGet p node).toList) []

/-- Translation of _json_read (src/main.py lines 10-33): the literal path
"$" selects the whole document; otherwise the path is stripped of
whitespace, of all leading dollar characters, then of all leading dots,
split on dots, and the segments are folded left to right. -/
def jsonRead (doc : Json) (path : List Char) : List Json :=
  if path = "$".data then [doc]
  else (splitDot (dropDots (dropDollars (pyStripWs path)))).foldl segStep [doc]

/-! ## Python value primitives used by the engine evaluator -/

/-- The apostrophe character used by the Python repr of strings. -/
def quoteChar : Char := Char.ofNat 39

mutual

/-- Model of Python repr on the values that can appear in a parsed JSON
document (used by str on lists and dicts). -/
def pyRepr : Json → List Char
  | .null => "None".data
  | .bool true => "True".data
  | .bool false => "False".data
  | .int n => (toString n).data
  | .str s => quoteChar :: s ++ [quoteChar]
  | .arr xs => '[' :: pyReprArr xs ++ [']']
  | .obj kvs => '{' :: pyReprObj kvs ++ ['}']

/-- Comma-separated reprs of the elements of a list value. -/
def pyReprArr : List Json → List Char
  | [] => []
  | [x] => pyRepr x
  | x :: y :: rest => pyRepr x ++ ',' :: ' ' :: pyReprArr (y :: rest)

/-- Comma-separated key: value reprs of the entries of a dict value. -/
def pyReprObj : List (List Char × Json) → List Char
  | [] => []
  | [(k, v)] => (quoteChar :: k ++ [quoteChar]) ++ ':' :: ' ' :: pyRepr v
  | (k, v) :: kv :: rest =>
    (quoteChar :: k ++ [quoteChar]) ++ ':' :: ' ' :: pyRepr v
      ++ ',' :: ' ' :: pyReprObj (kv :: rest)

end

/-- Model of Python str applied to a JSON value: identity on strings,
repr-like rendering on everything else. -/
def pyStr : Json → List Char
  | .str s => s
  | v => pyRepr v

/-- Python truthiness of a JSON value. -/
def pyTruthy : Json → Bool
  | .null => false
  | .bool b => b
  | .int n => decide (n ≠ 0)
  | .str s => decide (s ≠ [])
  | .arr xs => !xs.isEmpty
  | .obj kvs => !kvs.isEmpty

/-- Value of one decimal digit character. -/
def digitVal (c : Char) : Option Nat :=
  if 48 ≤ c.toNat ∧ c.toNat ≤ 57 then some (c.toNat - 48) else none

/-- Accumulating decimal parse; fails on the first non-digit. -/
def digitsToNatGo (acc : Nat) : List Char → Option Nat
  | [] => some acc
  | c :: rest =>
    match digitVal c with
    | some d => digitsToNatGo (acc * 10 + d) rest
    | none => none

/-- Model of Python int applied to a string: surrounding whitespace is
allowed, then an optional sign and a non-empty digit run. -/
def parseIntChars (s0 : List Char) : Option Int :=
  match pyStripWs s0 with
  | [] => none
  | '-' :: rest =>
    if rest = [] then none else (digitsToNatGo 0 rest).map (fun n => -(n : Int))
  | '+' :: rest =>
    if rest = [] then none else (digitsToNatGo 0 rest).map (fun n => (n : Int))
  | s => (digitsToNatGo 0 s).map (fun n => (n : Int))

/-- Model of Python int applied to a JSON value, as used with the
try/except around int(vals[0]): none means the coercion raised. -/
def pyToInt : Json → Option Int
  | .bool b => some (if b then 1 else 0)
  | .int n => some n
  | .str s => parseIntChars s
  | _ => none

/-! ## Normalizer, translation of _norm (src/main.py lines 35-39) -/

/-- The two normalization flags of an exists rule criterion. -/
structure NormFlags : Type where
  to_lower : Bool := false
  replace_underscores_with_dashes : Bool := false

/-- Translation of _norm on a string input: underscores are replaced by
dashes first (when enabled), then the result is lowercased (when enabled). -/
def pyNorm (s : List Char) (nf : NormFlags) : List Char :=
  let s1 := if nf.replace_underscores_with_dashes then s.map replChar else s
  if nf.to_lower then s1.map lowerChar else s1

/-- The string the normalizer starts from for a JSON value: the empty
string for null (Python None), str of the value otherwise. -/
def strOfVal : Json → List Char
  | .null => []
  | v => pyStr v

/-- Translation of _norm on a JSON value. -/
def pyNormV (v : Json) (nf : NormFlags) : List Char := pyNorm (strOfVal v) nf

/-! ## Engine configuration (the EngineSpec fields the evaluator reads) -/

/-- One criterion of a json_any_match rule. -/
structure Criterion : Type where
  path : List Char
  equals : Option (List Char) := none
  normalize : NormFlags := {}

/-- The tagged exists rule of an engine. -/
inductive ExistsRule : Type where
  | status_is : Option Int → ExistsRule
  | json_any_eq : List Char → NormFlags → ExistsRule
  | json_any_match : List Criterion → ExistsRule

/-- Throttle configuration; the empty configuration stands for both an
absent throttle key and an empty throttle dict, which the source treats
identically because of the or-default and the truthiness test. -/
structure ThrottleCfg : Type where
  max_per_minute : Option Nat := none
  env_bypass : Option (List Char) := none

/-- Result-extraction configuration; the empty configuration stands for an
absent or empty result dict. -/
structure ResultCfg : Type where
  count_path : Option (List Char) := none
  exact_any_path : Option (List Char) := none
  urls_path : Option (List Char) := none

/-- The engine fields read by run_engine after the request is built.  The
url and headers fields only shape the outgoing request and are not part
of the embedded outcome computation. -/
structure Engine : Type where
  id : List Char
  throttle : ThrottleCfg := {}
  existsRule : Option ExistsRule := none
  result : ResultCfg := {}

/-- The normalized outcome assembled by run_engine. -/
structure Outcome : Type where
  exists_ : Bool
  count : Int
  exact : Bool
  urls : List (List Char)
  status : Int

/-- The literal placeholder that makes a criterion compare against the
query instead of a fixed string. -/
def qToken : List Char := ['{', 'q', '}']

/-- The target string of one criterion: the query when equals is the
placeholder, otherwise the configured literal with None and the empty
string both collapsing to the empty string (tgt or empty). -/
def targetOf (c : Criterion) (query : List Char) : List Char :=
  if c.equals = some qToken then query else c.equals.getD []

/-- Does criterion c accept column col at index i?  An index beyond the
column's length reads as None (getD with default null), exactly as the
val helper inside run_engine returns None there. -/
def critOk (query : List Char) (i : Nat) (c : Criterion) (col : List Json) : Bool :=
  decide (pyNormV (col.getD i .null) c.normalize = pyNorm (targetOf c query) c.normalize)

/-- Maximum of the column lengths, 0 for no criteria (Python max with
default 0). -/
def maxLens (cols : List (List Json)) : Nat :=
  (cols.map List.length).foldr Nat.max 0

/-- The json_any_match loop of run_engine (src/main.py lines 114-135):
scan indices 0 to maxlen - 1 and report whether some index satisfies
every criterion. -/
def anyMatchExists (crits : List Criterion) (query : List Char) (data : Json) : Bool :=
  let cols := crits.map fun c => jsonRead data c.path
  (List.range (maxLens cols)).any fun i =>
    (crits.zip cols).all fun cc => critOk query i cc.1 cc.2

/-- Translation of the outcome computation of run_engine
(src/main.py lines 95-149), as a pure function of the engine, the query,
and the fetched (status, document) pair.  A transport failure corresponds
to the pair (0, null). -/
def runEngine (eng : Engine) (query : List Char) (status : Int) (data : Json) : Outcome :=
  let ex0 : Bool :=
    match eng.existsRule with
    | some (.status_is code) => decide (status = code.getD 200)
    | some (.json_any_eq path nf) =>
      if isListOrDict data then
        (jsonRead data path).any fun v => decide (pyNormV v nf = pyNorm query nf)
      else false
    | some (.json_any_match crits) =>
      if isListOrDict data then anyMatchExists crits query data else false
    | none => false
  let cnt : Int :=
    match eng.result.count_path with
    | some p =>
      if p ≠ [] ∧ isListOrDict data = true then
        match jsonRead data p with
        | [] => 0
        | v :: _ => (pyToInt v).getD 0
      else 0
    | none => 0
  let exa : Bool :=
    match eng.result.exact_any_path with
    | some p =>
      if p ≠ [] ∧ isListOrDict data = true then
        (jsonRead data p).any fun n => decide (pyLower (pyStr n) = pyLower query)
      else false
    | none => false
  let us : List (List Char) :=
    match eng.result.urls_path with
    | some p =>
      if p ≠ [] ∧ isListOrDict data = true then
        (((jsonRead data p).filter pyTruthy).map pyStr).take 10
      else []
    | none => []
  ⟨ex0, cnt, exa, us, status⟩

/-! ## Throttle decision of run_engine (src/main.py lines 91-93) -/

/-- Python truthiness of an os.getenv result: false for an unset variable
and for one set to the empty string. -/
def envTruthy : Option (List Char) → Bool
  | none => false
  | some s => decide (s ≠ [])

/-- Truthiness of the throttle dict over its recognized keys. -/
def thTruthy (t : ThrottleCfg) : Bool :=
  t.max_per_minute.isSome || t.env_bypass.isSome

/-- The rate-limiter call made by run_engine before fetching: some limit
when throttle(int(th.get(max_per_minute, 9))) is invoked, none when the
throttle block is skipped.  The environment is a map from variable names
to their values. -/
def throttleRequest (env : List Char → Option (List Char))
    (eng : Engine) : Option Nat :=
  if thTruthy eng.throttle ∧ envTruthy (env (eng.throttle.env_bypass.getD [])) = false then
    some (eng.throttle.max_per_minute.getD 9)
  else none

/-! ## Rate limiter, translation of throttle (src/main.py lines 73-82)

Timestamps are rationals.  The mutable deque becomes explicit state, and
time.sleep(d) is modeled by advancing the clock by d before the second
time.time() call records the new timestamp; computation outside sleep is
treated as instantaneous. -/

/-- The eviction loop: popleft while the front entry is more than 60
seconds older than now. -/
def evict (now : ℚ) : List ℚ → List ℚ
  | [] => []
  | t :: ts => if 60 < now - t then evict now ts else t :: ts

/-- One call of throttle(max_per_minute) at clock time now: evict, then
sleep when the remaining count is at or above the limit, then record the
post-sleep clock time.  Returns the sleep duration and the new queue.
When the limit is 0 and the queue empties, the Python code would raise an
IndexError reading the front; that unreachable-for-positive-limits case
is mapped to a zero sleep. -/
def throttleStep (m : Nat) (ts : List ℚ) (now : ℚ) : ℚ × List ℚ :=
  let ts1 := evict now ts
  let d : ℚ :=
    if m ≤ ts1.length then
      match ts1 with
      | [] => 0
      | t0 :: _ => max 0 (60 - (now - t0) + 1 / 20)
    else 0
  (d, ts1 ++ [now + d])

/-- Run a sequence of throttle calls, one per requested clock time,
threading the queue; returns the list of (sleep duration, recorded
timestamp) pairs and the final queue. -/
def throttleRunSt (m : Nat) : List ℚ → List ℚ → List (ℚ × ℚ) × List ℚ
  | ts, [] => ([], ts)
  | ts, now :: rest =>
    let p := throttleStep m ts now
    let r := throttleRunSt m p.2 rest
    ((p.1, now + p.1) :: r.1, r.2)

/-! ## Name source, translation of _read_names_csv
(src/input_output/input_readers.py lines 4-31); the identical
read_names_csv in src/src/io_names.py lines 6-44 is the same logic.
The model starts from the per-row values of the selected name column. -/

/-- Keep one raw cell value: strip it, then keep it when non-empty and not
comment-prefixed. -/
def keepName (r : List Char) : Option (List Char) :=
  let v := pyStripWs r
  if v ≠ [] ∧ startsHash v = false then some v else none

/-- The de-dup loop: seen set and output list, first occurrence kept. -/
def dedupGo (seen : List (List Char)) : List (List Char) → List (List Char)
  | [] => []
  | n :: ns => if n ∈ seen then dedupGo seen ns else n :: dedupGo (n :: seen) ns

/-- The produced name sequence for a tabular source whose header selects
the name column: filter and strip each row's value, then de-duplicate
preserving order. -/
def namesFromRows (rows : List (List Char)) : List (List Char) :=
  dedupGo [] (rows.filterMap keepName)

/-! ## Spec-side restatements used to compare claims against the code

These definitions follow the wording of the specification sentences the
claims quote; they exist to be compared with the code translations above
and are not translations of the source. -/

/-- The three segment shapes the specification describes. -/
inductive Seg : Type where
  | key : List Char → Seg
  | keyStar : List Char → Seg
  | star : Seg

/-- Classify one raw segment string into its shape, with the same tests
and order as the extractor loop. -/
def classifySeg (p : List Char) : Seg :=
  if p = "[*]".data then .star
  else if endsWithStar p then .keyStar (p.take (p.length - 3))
  else .key p

/-- The per-shape segment semantics the specification describes: a plain
key selects that key from every dict-shaped node dropping non-matches, a
key with wildcard flattens the named array field, the bare wildcard
flattens every array-shaped node. -/
def applySeg (cur : List Json) : Seg → List Json
  | .key k => cur.filterMap (objGet k)
  | .keyStar k => cur.flatMap (keyStarElems k)
  | .star => cur.flatMap starElems

/-- The parse the claim describes: strip one leading dollar-dot prefix
(when present) and split on dots. -/
def claimSegsOf (path : List Char) : List (List Char) :=
  splitDot (if path.take 2 = "$.".data then path.drop 2 else path)

/-- The extractor the claim describes: the whole document for the literal
dollar path, otherwise the claimed parse folded through the claimed
segment semantics. -/
def claimExtract (doc : Json) (path : List Char) : List Json :=
  if path = "$".data then [doc]
  else ((claimSegsOf path).map classifySeg).foldl applySeg [doc]

/-- Criterion acceptance as the claim describes it: an index beyond the
column's length never matches, whatever the target value is. -/
def critOkClaim (query : List Char) (i : Nat) (c : Criterion) (col : List Json) : Bool :=
  decide (i < col.length) && critOk query i c col

/-- The json_any_match existence decision as the claim describes it. -/
def claimAnyMatchExists (crits : List Criterion) (query : List Char) (data : Json) : Bool :=
  let cols := crits.map fun c => jsonRead data c.path
  (List.range (maxLens cols)).any fun i =>
    (crits.zip cols).all fun cc => critOkClaim query i cc.1 cc.2

/-! ## Concrete fixtures used by counterexamples and witnesses -/

/-- A criterion comparing the values under a-star against the literal x. -/
def crit1a : Criterion := ⟨"a[*]".data, some "x".data, {}⟩

/-- A criterion comparing the values under b-star against the empty
literal. -/
def crit1b : Criterion := ⟨"b[*]".data, some [], {}⟩

/-- A document whose a column has two entries but whose b column has only
one, so index 1 is beyond the b column's length. -/
def doc1 : Json :=
  .obj [("a".data, .arr [.str "x".data, .str "x".data]),
        ("b".data, .arr [.str "y".data])]

/-- An engine whose exists rule is json_any_match over the two criteria. -/
def eng1 : Engine := ⟨"g".data, {}, some (.json_any_match [crit1a, crit1b]), {}⟩

/-- A one-key document used to probe the path parse. -/
def doc4 : Json := .obj [("a".data, .int 1)]

/-- Fifteen non-empty URL strings. -/
def urls15 : List Json :=
  [.str "u01".data, .str "u02".data, .str "u03".data, .str "u04".data,
   .str "u05".data, .str "u06".data, .str "u07".data, .str "u08".data,
   .str "u09".data, .str "u10".data, .str "u11".data, .str "u12".data,
   .str "u13".data, .str "u14".data, .str "u15".data]

/-- A document carrying the fifteen URL candidates under the u key. -/
def doc8 : Json := .obj [("u".data, .arr urls15)]

/-- An engine that extracts urls from the u column. -/
def eng8 : Engine := ⟨"github".data, {}, none, ⟨none, none, some "u[*]".data⟩⟩

/-- An environment in which the variable VAR is set to the empty string
and everything else is unset. -/
def env7 (name : List Char) : Option (List Char) :=
  if name = "VAR".data then some [] else none

/-- An engine whose throttle names VAR as its bypass variable. -/
def eng7 : Engine := ⟨"pypi".data, ⟨some 5, some "VAR".data⟩, none, {}⟩

/-! ## Helper lemmas -/

theorem dedupGo_sublist (seen : List (List Char)) (l : List (List Char)) :
    (dedupGo seen l).Sublist l := by
  induction l generalizing seen with
  | nil => simp [dedupGo]
  | cons n ns ih =>
    by_cases h : n ∈ seen
    · simpa [dedupGo, h] using (ih seen).trans (List.sublist_cons_self n ns)
    · simpa [dedupGo, h] using (ih (n :: seen)).cons₂ n

theorem mem_dedupGo (seen : List (List Char)) (l : List (List Char)) (v : List Char) :
    v ∈ dedupGo seen l ↔ v ∈ l ∧ v ∉ seen := by
  induction l generalizing seen with
  | nil => simp [dedupGo]
  | cons n ns ih =>
    by_cases h : n ∈ seen
    · rw [dedupGo, if_pos h, ih]
      constructor
      · rintro ⟨hv, hvs⟩
        exact ⟨List.mem_cons_of_mem _ hv, hvs⟩
      · rintro ⟨hv, hvs⟩
        rcases List.mem_cons.1 hv with rfl | hv
        · exact absurd h hvs
        · exact ⟨hv, hvs⟩
    · rw [dedupGo, if_neg h]
      constructor
      · intro hv
        rcases List.mem_cons.1 hv with rfl | hv
        · exact ⟨List.mem_cons_self _ _, h⟩
        · rcases (ih (n :: seen)).1 hv with ⟨h1, h2⟩
          refine ⟨List.mem_cons_of_mem _ h1, fun hs => h2 (List.mem_cons_of_mem _ hs)⟩
      · rintro ⟨hv, hvs⟩
        rcases List.mem_cons.1 hv with rfl | hv
        · exact List.mem_cons_self _ _
        · by_cases hvn : v = n
          · subst hvn; exact List.mem_cons_self _ _
          · exact List.mem_cons_of_mem _ ((ih (n :: seen)).2
              ⟨hv, fun hs => (List.mem_cons.1 hs).elim hvn hvs⟩)

theorem dedupGo_nodup (seen : List (List Char)) (l : List (List Char)) :
    (dedupGo seen l).Nodup := by
  induction l generalizing seen with
  | nil => simp [dedupGo]
  | cons n ns ih =>
    by_cases h : n ∈ seen
    · simpa [dedupGo, h] using ih seen
    · rw [dedupGo, if_neg h]
      refine List.nodup_cons.2 ⟨fun hn => ?_, ih (n :: seen)⟩
      exact ((mem_dedupGo _ _ _).1 hn).2 (List.mem_cons_self _ _)

/-! ## Claim C9 -/

/-- C9: the name source deduplicates exact string matches while preserving
first-occurrence order: on the literal rows alpha, Alpha, beta, alpha the
produced sequence is exactly alpha, Alpha, beta (case-sensitive, so alpha
and Alpha stay distinct); in general the output is duplicate-free, is a
subsequence of the kept rows (order preserved), and contains exactly the
kept row values. -/
theorem c9_names :
    namesFromRows ["alpha".data, "Alpha".data, "beta".data, "alpha".data]
      = ["alpha".data, "Alpha".data, "beta".data] ∧
    ∀ rows : List (List Char),
      (namesFromRows rows).Nodup ∧
      (namesFromRows rows).Sublist (rows.filterMap keepName) ∧
      ∀ v, v ∈ namesFromRows rows ↔ v ∈ rows.filterMap keepName := by
  refine ⟨by decide, fun rows => ⟨dedupGo_nodup _ _, dedupGo_sublist _ _, fun v => ?_⟩⟩
  rw [namesFromRows, mem_dedupGo]
  simp

/-! ## Claims C2 and C10 -/

/-- C2: for an engine whose exists rule is status_is with an explicit code
c, the outcome's exists field is true exactly when the fetched status
equals c, for every document (including null) and every other engine
configuration. -/
theorem c2_status_is (c st : Int) (data : Json) (q id : List Char)
    (th : ThrottleCfg) (res : ResultCfg) :
    (runEngine ⟨id, th, some (.status_is (some c)), res⟩ q st data).exists_
      = decide (st = c) := rfl

/-- C10: for an engine whose exists rule is status_is with the code field
omitted, run_engine decides existence against the default code 200: exists
is true exactly when the fetched status equals 200, for every document. -/
theorem c10_default_code (st : Int) (data : Json) (q id : List Char)
    (th : ThrottleCfg) (res : ResultCfg) :
    (runEngine ⟨id, th, some (.status_is none), res⟩ q st data).exists_
      = decide (st = 200) := rfl

/-! ## Claim C5 -/

/-- C5 counterexample: the claim says that on a transport failure (status
0, null document) the outcome always has exists false, but an engine whose
status_is rule carries code 0 compares 0 with 0 and reports exists true. -/
theorem c5_counterexample :
    (runEngine ⟨"e".data, {}, some (.status_is (some 0)), {}⟩
        "q".data 0 .null).exists_ = true := rfl

/-- C5 amended: on a transport failure (status 0, null document) run_engine
returns count 0, exact false, empty urls and status 0, and exists is false
unless the engine's exists rule is status_is with an effective code of 0,
in which case exists is true. -/
theorem c5_amended (eng : Engine) (q : List Char) :
    (runEngine eng q 0 .null).count = 0 ∧
    (runEngine eng q 0 .null).exact = false ∧
    (runEngine eng q 0 .null).urls = [] ∧
    (runEngine eng q 0 .null).status = 0 ∧
    ((runEngine eng q 0 .null).exists_ = true ↔
      ∃ code, eng.existsRule = some (.status_is code) ∧ code.getD 200 = 0) := by
  obtain ⟨id, th, exr, res⟩ := eng
  obtain ⟨cp, ep, up⟩ := res
  refine ⟨?_, ?_, ?_, rfl, ?_⟩
  · cases cp <;> simp [runEngine, isListOrDict]
  · cases ep <;> simp [runEngine, isListOrDict]
  · cases up <;> simp [runEngine, isListOrDict]
  · match exr with
    | none => simp [runEngine]
    | some (.status_is code) =>
      simp only [runEngine]
      rw [decide_eq_true_iff]
      constructor
      · intro h
        exact ⟨code, rfl, h.symm⟩
      · rintro ⟨code', hc, h⟩
        cases hc
        exact h.symm
    | some (.json_any_eq p nf) => simp [runEngine, isListOrDict]
    | some (.json_any_match crits) => simp [runEngine, isListOrDict]

/-! ## Claim C8 -/

/-- C8: the urls field of every outcome has at most 10 entries; and when a
urls path is configured, the document is list or dict shaped and the
truthy extracted candidates number 15, the outcome's urls is exactly the
first 10 of the stringified candidates in original order. -/
theorem c8_urls :
    (∀ (eng : Engine) (q : List Char) (st : Int) (data : Json),
        (runEngine eng q st data).urls.length ≤ 10) ∧
    ∀ (eng : Engine) (q : List Char) (st : Int) (data : Json) (p : List Char),
      eng.result.urls_path = some p → p ≠ [] → isListOrDict data = true →
      ((jsonRead data p).filter pyTruthy).length = 15 →
      (runEngine eng q st data).urls
          = (((jsonRead data p).filter pyTruthy).map pyStr).take 10 ∧
        (runEngine eng q st data).urls.length = 10 := by
  constructor
  · intro eng q st data
    obtain ⟨id, th, exr, res⟩ := eng
    obtain ⟨cp, ep, up⟩ := res
    cases up with
    | none => simp [runEngine]
    | some p =>
      simp only [runEngine]
      split_ifs with h
      · exact List.length_take_le 10 _
      · simp
  · intro eng q st data p hp hpne hld h15
    obtain ⟨id, th, exr, res⟩ := eng
    obtain ⟨cp, ep, up⟩ := res
    cases up with
    | none => simp at hp
    | some p' =>
      obtain rfl : p' = p := by simpa using hp
      constructor
      · simp only [runEngine]
        rw [if_pos ⟨hpne, hld⟩]
      · simp only [runEngine]
        rw [if_pos ⟨hpne, hld⟩, List.length_take, List.length_map, h15]
        decide

/-- C8 witness: the general theorem applied to a github-style engine and a
document carrying fifteen URL candidates. -/
theorem c8_witness :
    (runEngine eng8 "q".data 200 doc8).urls
        = (((jsonRead doc8 "u[*]".data).filter pyTruthy).map pyStr).take 10 ∧
      (runEngine eng8 "q".data 200 doc8).urls.length = 10 :=
  c8_urls.2 eng8 "q".data 200 doc8 "u[*]".data rfl (by decide) rfl (by rfl)

/-! ## Claim C3 -/

theorem ofNat_add32_ne_underscore (t : Nat) (h1 : 65 ≤ t) (h2 : t ≤ 90) :
    Char.ofNat (t + 32) ≠ '_' := by
  interval_cases t <;> decide

theorem lowerChar_ne_underscore (c : Char) (hc : c ≠ '_') : lowerChar c ≠ '_' := by
  rw [lowerChar]
  split_ifs with h
  · exact ofNat_add32_ne_underscore c.toNat h.1 h.2
  · exact hc

theorem lowerChar_replChar_comm (c : Char) :
    lowerChar (replChar c) = replChar (lowerChar c) := by
  by_cases hc : c = '_'
  · subst hc; decide
  · rw [replChar, if_neg hc, replChar, if_neg (lowerChar_ne_underscore c hc)]

theorem pyNorm_eq_of_lower_eq (nf : NormFlags) (hl : nf.to_lower = true)
    (a b : List Char) (h : pyLower a = pyLower b) : pyNorm a nf = pyNorm b nf := by
  rw [pyNorm, pyNorm, hl]
  cases hu : nf.replace_underscores_with_dashes with
  | false =>
    simpa [pyLower] using h
  | true =>
    simp only [if_true, List.map_map]
    have hc : (lowerChar ∘ replChar) = (replChar ∘ lowerChar) := by
      funext c
      exact lowerChar_replChar_comm c
    rw [hc, ← List.map_map, ← List.map_map]
    show (pyLower a).map replChar = (pyLower b).map replChar
    rw [h]

/-- C3: for an engine whose json_any_eq rule has the lowercase flag
enabled, two queries that agree up to case yield the same exists value on
every fixed document, because the same normalization is applied to the
query and to each extracted value. -/
theorem c3_case_insensitive (path : List Char) (nf : NormFlags)
    (hl : nf.to_lower = true) (q1 q2 : List Char) (hq : pyLower q1 = pyLower q2)
    (st : Int) (data : Json) (id : List Char) (th : ThrottleCfg) (res : ResultCfg) :
    (runEngine ⟨id, th, some (.json_any_eq path nf), res⟩ q1 st data).exists_
      = (runEngine ⟨id, th, some (.json_any_eq path nf), res⟩ q2 st data).exists_ := by
  have hn : pyNorm q1 nf = pyNorm q2 nf := pyNorm_eq_of_lower_eq nf hl q1 q2 hq
  simp only [runEngine, hn]

/-- C3 witness: the theorem at the queries Foo and foo, the lowercase
flag on, and a concrete document. -/
theorem c3_witness :
    (runEngine ⟨"pypi".data, {}, some (.json_any_eq "a[*]".data ⟨true, false⟩), {}⟩
        "Foo".data 200 doc1).exists_
      = (runEngine ⟨"pypi".data, {}, some (.json_any_eq "a[*]".data ⟨true, false⟩), {}⟩
        "foo".data 200 doc1).exists_ :=
  c3_case_insensitive "a[*]".data ⟨true, false⟩ rfl "Foo".data "foo".data (by decide)
    200 doc1 "pypi".data {} {}

/-! ## Claim C1 -/

theorem list_all_congr {α : Type} (l : List α) (f g : α → Bool)
    (h : ∀ x ∈ l, f x = g x) : l.all f = l.all g := by
  induction l with
  | nil => rfl
  | cons x xs ih =>
    rw [List.all_cons, List.all_cons, h x (List.mem_cons_self x xs),
      ih fun y hy => h y (List.mem_cons_of_mem x hy)]

theorem list_any_congr {α : Type} (l : List α) (f g : α → Bool)
    (h : ∀ x ∈ l, f x = g x) : l.any f = l.any g := by
  induction l with
  | nil => rfl
  | cons x xs ih =>
    rw [List.any_cons, List.any_cons, h x (List.mem_cons_self x xs),
      ih fun y hy => h y (List.mem_cons_of_mem x hy)]

theorem pyNorm_nil (nf : NormFlags) : pyNorm [] nf = [] := by
  simp [pyNorm]

/-- C1 counterexample: the claim says an index beyond a column's length
never matches its criterion, whatever the target; but on a document where
the a column has two entries and the b column one, with the b criterion
targeting the empty literal, run_engine reports existence at index 1
while the claimed semantics reports none. -/
theorem c1_counterexample :
    (runEngine eng1 "q".data 200 doc1).exists_ = true ∧
    claimAnyMatchExists [crit1a, crit1b] "q".data doc1 = false := ⟨rfl, rfl⟩

/-- C1 amended: the json_any_match loop scans indices 0 to maxlen - 1 and
sets exists exactly when some index satisfies all criteria, where an index
beyond a column's length reads the value None, which normalizes to the
empty string, so such an index matches its criterion exactly when the
criterion's normalized target is empty; in particular, whenever every
criterion's normalized target is non-empty, the behaviour is exactly the
claimed one (beyond-length positions never match). -/
theorem c1_amended (crits : List Criterion) (q : List Char) (st : Int) (data : Json)
    (id : List Char) (th : ThrottleCfg) (res : ResultCfg)
    (hd : isListOrDict data = true) :
    ((runEngine ⟨id, th, some (.json_any_match crits), res⟩ q st data).exists_ = true ↔
      ∃ i, i < maxLens (crits.map fun c => jsonRead data c.path) ∧
        ∀ cc ∈ crits.zip (crits.map fun c => jsonRead data c.path),
          critOk q i cc.1 cc.2 = true) ∧
    ((∀ c ∈ crits, pyNorm (targetOf c q) c.normalize ≠ []) →
      (runEngine ⟨id, th, some (.json_any_match crits), res⟩ q st data).exists_
        = claimAnyMatchExists crits q data) := by
  have hex : (runEngine ⟨id, th, some (.json_any_match crits), res⟩ q st data).exists_
      = anyMatchExists crits q data := by
    simp only [runEngine, hd, if_true]
  constructor
  · rw [hex, anyMatchExists]
    simp [List.any_eq_true, List.all_eq_true, List.mem_range]
  · intro hne
    rw [hex, anyMatchExists, claimAnyMatchExists]
    refine list_any_congr _ _ _ fun i _ => ?_
    refine list_all_congr _ _ _ fun cc hcc => ?_
    by_cases hi : i < cc.2.length
    · simp [critOkClaim, hi]
    · have hdef : cc.2.getD i .null = .null :=
        List.getD_eq_default _ _ (Nat.le_of_not_lt hi)
      have hc1 : cc.1 ∈ crits := (List.of_mem_zip hcc).1
      have hfalse : critOk q i cc.1 cc.2 = false := by
        rw [critOk, hdef]
        have : pyNormV Json.null cc.1.normalize = [] := pyNorm_nil _
        rw [this]
        exact decide_eq_false fun h => hne cc.1 hc1 h.symm
      simp [critOkClaim, hi, hfalse]

/-- C1 witness: the amended theorem at a single-criterion engine with a
non-empty target over a concrete list-shaped document. -/
theorem c1_witness :
    ((runEngine ⟨"g".data, {}, some (.json_any_match [crit1a]), {}⟩
        "q".data 200 doc1).exists_ = true ↔
      ∃ i, i < maxLens ([crit1a].map fun c => jsonRead doc1 c.path) ∧
        ∀ cc ∈ [crit1a].zip ([crit1a].map fun c => jsonRead doc1 c.path),
          critOk "q".data i cc.1 cc.2 = true) ∧
    ((∀ c ∈ [crit1a], pyNorm (targetOf c "q".data) c.normalize ≠ []) →
      (runEngine ⟨"g".data, {}, some (.json_any_match [crit1a]), {}⟩
          "q".data 200 doc1).exists_
        = claimAnyMatchExists [crit1a] "q".data doc1) :=
  c1_amended [crit1a] "q".data 200 doc1 "g".data {} {} rfl

/-! ## Claim C4 -/

theorem foldl_append_eq_flatMap {α β : Type} (l : List α) (f : α → List β) :
    ∀ acc, l.foldl (fun nxt node => nxt ++ f node) acc = acc ++ l.flatMap f := by
  induction l with
  | nil => intro acc; simp
  | cons x xs ih => intro acc; rw [List.foldl_cons, ih]; simp

theorem flatMap_toList_eq_filterMap {α β : Type} (l : List α) (f : α → Option β) :
    l.flatMap (fun a => (f a).toList) = l.filterMap f := by
  induction l with
  | nil => rfl
  | cons x xs ih =>
    cases hx : f x <;> simp [hx, ih]

theorem segStep_eq (cur : List Json) (p : List Char) :
    segStep cur p = applySeg cur (classifySeg p) := by
  rw [segStep, classifySeg]
  split_ifs with h1 h2
  · show _ = cur.flatMap starElems
    simpa using foldl_append_eq_flatMap cur starElems []
  · show _ = cur.flatMap (keyStarElems (p.take (p.length - 3)))
    simpa using foldl_append_eq_flatMap cur (keyStarElems (p.take (p.length - 3))) []
  · show _ = cur.filterMap (objGet p)
    rw [← flatMap_toList_eq_filterMap cur (objGet p)]
    simpa using foldl_append_eq_flatMap cur (fun node => (objGet p node).toList) []

/-- C4 counterexample: on the path dot-a the code strips the leading dot
and selects key a, while the claim's parse (strip one leading dollar-dot,
then split on dots) yields an empty first segment that drops every node,
so the two extractors disagree on a concrete document. -/
theorem c4_counterexample :
    jsonRead doc4 ".a".data = [Json.int 1] ∧
    claimExtract doc4 ".a".data = [] ∧
    jsonRead doc4 ".a".data ≠ claimExtract doc4 ".a".data := by
  have h1 : jsonRead doc4 ".a".data = [Json.int 1] := rfl
  have h2 : claimExtract doc4 ".a".data = [] := rfl
  refine ⟨h1, h2, ?_⟩
  rw [h1, h2]
  simp

/-- C4 amended: extract on the literal dollar path returns the one-element
sequence holding the document; on every other path the segments, obtained
by stripping surrounding whitespace, then all leading dollar characters,
then all leading dots, and splitting on dots, apply left to right with the
claimed per-segment semantics: a plain key selects that key from every
dict-shaped node dropping the others, a key with a wildcard suffix
flattens that key's list value, and the bare wildcard token flattens every
list-shaped node; missing keys and shape mismatches drop branches silently. -/
theorem c4_amended (doc : Json) (path : List Char) :
    jsonRead doc "$".data = [doc] ∧
    jsonRead doc path
      = if path = "$".data then [doc]
        else ((splitDot (dropDots (dropDollars (pyStripWs path)))).map
            classifySeg).foldl applySeg [doc] := by
  refine ⟨rfl, ?_⟩
  rw [jsonRead]
  split_ifs with h
  · rfl
  · have hstep : segStep = fun cur p => applySeg cur (classifySeg p) := by
      funext cur p
      exact segStep_eq cur p
    rw [List.foldl_map, ← hstep]

/-! ## Claim C7 -/

/-- C7 counterexample: the claim says presence of the bypass variable
alone skips the limiter, but with the variable set to the empty string
(present, falsy) the limiter is still called with the configured limit. -/
theorem c7_counterexample :
    (env7 "VAR".data).isSome = true ∧ throttleRequest env7 eng7 = some 5 :=
  ⟨rfl, rfl⟩

/-- C7 amended: for an engine whose throttle names a bypass variable, the
limiter is skipped exactly when the variable is set to a non-empty value;
when the variable is unset or set to the empty string the limiter is
called with the configured max_per_minute, defaulting to 9. -/
theorem c7_amended (env : List Char → Option (List Char)) (eng : Engine)
    (name : List Char) (hb : eng.throttle.env_bypass = some name) :
    (∀ v, env name = some v → v ≠ [] → throttleRequest env eng = none) ∧
    ((env name = none ∨ env name = some []) →
      throttleRequest env eng = some (eng.throttle.max_per_minute.getD 9)) := by
  have ht : thTruthy eng.throttle = true := by
    rw [thTruthy, hb]
    simp
  have hg : eng.throttle.env_bypass.getD [] = name := by
    rw [hb]
    rfl
  constructor
  · intro v hv hvne
    rw [throttleRequest, hg, hv, if_neg]
    rintro ⟨-, h2⟩
    rw [envTruthy] at h2
    simp [hvne] at h2
  · intro hcase
    rw [throttleRequest, hg]
    rcases hcase with h | h <;> rw [h, if_pos ⟨ht, rfl⟩]

/-- C7 witness: the amended theorem at the concrete engine whose bypass
variable is set to the empty string, where the limiter is invoked with the
configured limit. -/
theorem c7_witness :
    (∀ v, env7 "VAR".data = some v → v ≠ [] →
        throttleRequest env7 eng7 = none) ∧
    ((env7 "VAR".data = none ∨ env7 "VAR".data = some []) →
      throttleRequest env7 eng7 = some (eng7.throttle.max_per_minute.getD 9)) :=
  c7_amended env7 eng7 "VAR".data rfl

/-! ## Claim C6 -/

theorem evict_cons_of_le (now t : ℚ) (ts : List ℚ) (h : now - t ≤ 60) :
    evict now (t :: ts) = t :: ts := by
  rw [evict, if_neg (not_lt.2 h)]

theorem evict_eq_nil (now : ℚ) (ts : List ℚ) (h : ∀ x ∈ ts, 60 < now - x) :
    evict now ts = [] := by
  induction ts with
  | nil => rfl
  | cons t ts' ih =>
    rw [evict, if_pos (h t (List.mem_cons_self _ _))]
    exact ih fun x hx => h x (List.mem_cons_of_mem _ hx)

theorem throttleRunSt_no_sleep (m : Nat) (base : ℚ) :
    ∀ (calls ts : List ℚ), ts.length + calls.length ≤ m →
      (∀ x ∈ ts, base ≤ x ∧ x ≤ base + 60) →
      (∀ x ∈ calls, base ≤ x ∧ x ≤ base + 60) →
      throttleRunSt m ts calls = (calls.map fun c => (0, c), ts ++ calls) := by
  intro calls
  induction calls with
  | nil =>
    intro ts _ _ _
    simp [throttleRunSt]
  | cons now rest ih =>
    intro ts hlen hts hcalls
    have hnow := hcalls now (List.mem_cons_self _ _)
    have hev : evict now ts = ts := by
      cases ts with
      | nil => rfl
      | cons t0 ts' =>
        have ht0 := hts t0 (List.mem_cons_self _ _)
        exact evict_cons_of_le now t0 ts' (by linarith [hnow.2, ht0.1])
    have hcond : ¬ (m ≤ ts.length) := by
      simp only [List.length_cons] at hlen
      omega
    have hstep : throttleStep m ts now = (0, ts ++ [now]) := by
      simp [throttleStep, hev, hcond]
    have hrec := ih (ts ++ [now])
      (by
        simp only [List.length_append, List.length_cons, List.length_nil] at hlen ⊢
        omega)
      (by
        intro x hx
        rcases List.mem_append.1 hx with hx | hx
        · exact hts x hx
        · rcases List.mem_singleton.1 hx with rfl
          exact hnow)
      (fun x hx => hcalls x (List.mem_cons_of_mem _ hx))
    simp only [throttleRunSt, hstep, hrec]
    simp

theorem throttleRunSt_append (m : Nat) :
    ∀ (as bs ts : List ℚ),
      throttleRunSt m ts (as ++ bs)
        = ((throttleRunSt m ts as).1
            ++ (throttleRunSt m (throttleRunSt m ts as).2 bs).1,
           (throttleRunSt m (throttleRunSt m ts as).2 bs).2) := by
  intro as
  induction as with
  | nil =>
    intro bs ts
    simp [throttleRunSt]
  | cons a as' ih =>
    intro bs ts
    simp only [List.cons_append, throttleRunSt, List.append_eq]
    rw [ih bs (throttleStep m ts a).2]

theorem chain61_head_le (x : ℚ) (l : List ℚ)
    (h : List.Chain' (fun a b => b = a + 61) (x :: l)) :
    ∀ c ∈ l, x + 61 ≤ c := by
  induction l generalizing x with
  | nil => simp
  | cons y l' ih =>
    rw [List.chain'_cons] at h
    intro c hc
    rcases List.mem_cons.1 hc with rfl | hc
    · linarith [h.1]
    · have := ih y h.2 c hc
      linarith [h.1]

theorem throttle_b_aux (m : Nat) (hm : 1 ≤ m) :
    ∀ (calls ts : List ℚ),
      List.Chain' (fun a b => b = a + 61) calls →
      (∀ x ∈ ts, ∀ c ∈ calls, x + 61 ≤ c) →
      ((throttleRunSt m ts calls).1).all (fun p => decide (p.1 = 0)) = true := by
  intro calls
  induction calls with
  | nil =>
    intro ts _ _
    simp [throttleRunSt]
  | cons now rest ih =>
    intro ts hch hsep
    have hev : evict now ts = [] := by
      refine evict_eq_nil now ts fun x hx => ?_
      have := hsep x hx now (List.mem_cons_self _ _)
      linarith
    have hmne : m ≠ 0 := by omega
    have hstep : throttleStep m ts now = (0, [now]) := by
      simp [throttleStep, hev, Nat.le_zero, hmne]
    have hrec := ih [now] hch.tail (by
      intro x hx c hc
      have hxn : x = now := List.mem_singleton.1 hx
      rw [hxn]
      exact chain61_head_le now rest hch c hc)
    simp only [throttleRunSt, hstep]
    simp [hrec]

/-- C6: both halves of the rate-limiter claim.  First, for a positive
limit m, after m calls all lying within 60 seconds of the first call's
time, the next call is put to sleep for a positive duration and its
recorded completion time is at least the first call's recorded timestamp
plus 60 seconds, the earlier m calls having slept zero.  Second, m calls
spaced exactly 61 seconds apart never sleep, because each call evicts
every older timestamp from the queue before the limit check. -/
theorem c6_throttle :
    (∀ (m : Nat) (c1 : ℚ) (mid : List ℚ) (cl : ℚ),
      1 ≤ m → (c1 :: mid).length = m →
      (∀ x ∈ c1 :: (mid ++ [cl]), c1 ≤ x ∧ x ≤ c1 + 60) →
      ∃ d, 0 < d ∧
        (throttleRunSt m [] ((c1 :: mid) ++ [cl])).1
          = ((c1 :: mid).map fun c => (0, c)) ++ [(d, cl + d)] ∧
        c1 + 60 ≤ cl + d) ∧
    (∀ (m : Nat) (calls : List ℚ), 1 ≤ m →
      List.Chain' (fun a b => b = a + 61) calls →
      ((throttleRunSt m [] calls).1).all (fun p => decide (p.1 = 0)) = true) := by
  constructor
  · intro m c1 mid cl hm hlen hb
    have hcl : c1 ≤ cl ∧ cl ≤ c1 + 60 :=
      hb cl (List.mem_cons_of_mem _ (List.mem_append_right _ (List.mem_singleton_self _)))
    have hinit : throttleRunSt m [] (c1 :: mid) = ((c1 :: mid).map fun c => (0, c), c1 :: mid) := by
      refine throttleRunSt_no_sleep m c1 (c1 :: mid) [] (by simp [hlen]) (by simp) ?_
      intro x hx
      rcases List.mem_cons.1 hx with rfl | hx
      · exact hb x (List.mem_cons_self _ _)
      · exact hb x (List.mem_cons_of_mem _ (List.mem_append_left _ hx))
    have hev2 : evict cl (c1 :: mid) = c1 :: mid :=
      evict_cons_of_le cl c1 mid (by linarith [hcl.2])
    have hd0 : (0 : ℚ) ≤ 60 - (cl - c1) + 1 / 20 := by
      have h20 : (0 : ℚ) < 1 / 20 := by norm_num
      linarith [hcl.2]
    have hstep : throttleStep m (c1 :: mid) cl
        = (60 - (cl - c1) + 1 / 20, (c1 :: mid) ++ [cl + (60 - (cl - c1) + 1 / 20)]) := by
      rw [throttleStep]
      simp only [hev2, hlen, le_refl, if_true]
      rw [max_eq_right hd0]
    refine ⟨60 - (cl - c1) + 1 / 20, by linarith [hcl.2], ?_, by linarith⟩
    rw [throttleRunSt_append m (c1 :: mid) [cl] [], hinit]
    simp only [throttleRunSt, hstep]
  · intro m calls hm hch
    exact throttle_b_aux m hm calls [] hch (by simp)

/-- C6 witness: one call at time 0 with limit 1, then a second call at
time 1, which must sleep until at least time 60; and separately a single
call on an empty queue, which does not sleep. -/
theorem c6_witness :
    (∃ d, 0 < d ∧
        (throttleRunSt 1 [] (((0 : ℚ) :: []) ++ [1])).1
          = (((0 : ℚ) :: []).map fun c => (0, c)) ++ [(d, 1 + d)] ∧
        (0 : ℚ) + 60 ≤ 1 + d) ∧
    ((throttleRunSt 1 [] [(0 : ℚ)]).1).all (fun p => decide (p.1 = 0)) = true :=
  ⟨c6_throttle.1 1 0 [] 1 (le_refl 1) rfl
      (by
        intro x hx
        rcases List.mem_cons.1 hx with rfl | hx
        · norm_num
        · rcases List.mem_singleton.1 hx with rfl
          norm_num),
    c6_throttle.2 1 [0] (le_refl 1) (by simp)⟩
